import Mathlib

set_option linter.unusedVariables false

/- Verification development for the TP-Link S3 inventory scripts
   (`sync_keys.py` and `archive_files.py`).  The pure core of both scripts
   is shallowly embedded below: the listing parser, the path classifier's
   two regex attempts, the CSV table store (at the row level; the CSV
   quoting layer is the Python standard library, external to the repo),
   the reconciliation loop of `sync_files`, and the archive submission
   loop of `archive_files.main`.  Strings are Lean `String`s; Python's
   code-point ordering on `str` is embedded as `strLtb` below. -/

namespace Tapo

/-- Lexicographic code-point comparison of character lists: this is the
order Python's `sorted(..., key=lambda r: r.fullpath)` uses on `str`. -/
def strLtb : List Char → List Char → Bool
  | [], [] => false
  | [], _ :: _ => true
  | _ :: _, [] => false
  | a :: as, b :: bs => if a < b then true else if b < a then false else strLtb as bs

theorem strLtb_asymm (x : List Char) : ∀ y, strLtb x y = true → strLtb y x = false := by
  induction x with
  | nil =>
    intro y h
    cases y with
    | nil => simp [strLtb] at h
    | cons b bs => simp [strLtb]
  | cons a as ih =>
    intro y h
    cases y with
    | nil => simp [strLtb] at h
    | cons b bs =>
      simp only [strLtb] at h ⊢
      by_cases hab : a < b
      · have hba : ¬ b < a := lt_asymm hab
        simp [hab, hba]
      · by_cases hba : b < a
        · simp [hab, hba] at h
        · rw [if_neg hab, if_neg hba] at h
          rw [if_neg hba, if_neg hab]
          exact ih bs h

theorem strLtb_trans (x : List Char) :
    ∀ y z, strLtb x y = true → strLtb y z = true → strLtb x z = true := by
  induction x with
  | nil =>
    intro y z hxy hyz
    cases y with
    | nil => simp [strLtb] at hxy
    | cons b bs =>
      cases z with
      | nil => simp [strLtb] at hyz
      | cons c cs => simp [strLtb]
  | cons a as ih =>
    intro y z hxy hyz
    cases y with
    | nil => simp [strLtb] at hxy
    | cons b bs =>
      cases z with
      | nil => simp [strLtb] at hyz
      | cons c cs =>
        simp only [strLtb] at hxy hyz ⊢
        by_cases hab : a < b
        · by_cases hbc : b < c
          · have hac : a < c := lt_trans hab hbc
            simp [hac]
          · by_cases hcb : c < b
            · simp [hbc, hcb] at hyz
            · have hbc2 : b = c := le_antisymm (not_lt.mp hcb) (not_lt.mp hbc)
              subst hbc2
              simp [hab]
        · by_cases hba : b < a
          · simp [hab, hba] at hxy
          · have hab2 : a = b := le_antisymm (not_lt.mp hba) (not_lt.mp hab)
            subst hab2
            rw [if_neg (lt_irrefl a), if_neg (lt_irrefl a)] at hxy
            by_cases hac : a < c
            · simp [hac]
            · by_cases hca : c < a
              · simp [hac, hca] at hyz
              · rw [if_neg hac, if_neg hca] at hyz
                rw [if_neg hac, if_neg hca]
                exact ih bs cs hxy hyz

theorem strLtb_eq_of_not (x : List Char) :
    ∀ y, strLtb x y = false → strLtb y x = false → x = y := by
  induction x with
  | nil =>
    intro y hxy hyx
    cases y with
    | nil => rfl
    | cons b bs => simp [strLtb] at hxy
  | cons a as ih =>
    intro y hxy hyx
    cases y with
    | nil => simp [strLtb] at hyx
    | cons b bs =>
      simp only [strLtb] at hxy hyx
      by_cases hab : a < b
      · simp [hab] at hxy
      · by_cases hba : b < a
        · simp [hab, hba] at hyx
        · have hab2 : a = b := le_antisymm (not_lt.mp hba) (not_lt.mp hab)
          subst hab2
          rw [if_neg (lt_irrefl a), if_neg (lt_irrefl a)] at hxy hyx
          rw [ih bs hxy hyx]

/-- One inventory entry: the six fields of `FileRecord` in `sync_keys.py`. -/
structure FileRecord where
  creation : String
  size : String
  fullpath : String
  added : String
  removed : String
  wayback_url : String
deriving DecidableEq

/-- Python's `value or default` on an optional string argument: both `None`
and the empty string are falsy and are replaced by the default. -/
def pyOrStr (v : Option String) (dflt : String) : String :=
  match v with
  | none => dflt
  | some s => if s = "" then dflt else s

/-- `FileRecord.__init__`: `added` defaults to the current date
(`datetime.now().strftime` — passed here as `nowDate`), `removed` and
`wayback_url` default to the empty string. -/
def FileRecord.mkPy (nowDate creation size fullpath : String)
    (added removed wayback_url : Option String) : FileRecord :=
  { creation := creation
    size := size
    fullpath := fullpath
    added := pyOrStr added nowDate
    removed := pyOrStr removed ""
    wayback_url := pyOrStr wayback_url "" }

/-- Key ordering on records used by `save_csv`'s
`sorted(records, key=lambda r: r.fullpath)`: non-strict form. -/
def pathLe (a b : FileRecord) : Prop := strLtb b.fullpath.data a.fullpath.data = false

/-- Strict key ordering on records. -/
def pathLt (a b : FileRecord) : Prop := strLtb a.fullpath.data b.fullpath.data = true

instance : DecidableRel pathLe := fun a b =>
  inferInstanceAs (Decidable (strLtb b.fullpath.data a.fullpath.data = false))

instance : IsTotal FileRecord pathLe := by
  refine ⟨fun a b => ?_⟩
  cases h : strLtb b.fullpath.data a.fullpath.data with
  | false => exact Or.inl h
  | true => exact Or.inr (strLtb_asymm _ _ h)

instance : IsTrans FileRecord pathLe := by
  refine ⟨fun a b c hab hbc => ?_⟩
  unfold pathLe at *
  cases h : strLtb c.fullpath.data a.fullpath.data with
  | false => rfl
  | true =>
    cases h2 : strLtb a.fullpath.data b.fullpath.data with
    | true =>
      have := strLtb_trans _ _ _ h h2
      rw [this] at hbc
      exact hbc
    | false =>
      have heq := strLtb_eq_of_not _ _ h2 hab
      rw [heq] at h
      rw [h] at hbc
      exact hbc

instance : IsAntisymm FileRecord pathLt := by
  refine ⟨fun a b h1 h2 => ?_⟩
  unfold pathLt at h1 h2
  have := strLtb_asymm _ _ h1
  rw [this] at h2
  exact absurd h2 (by simp)

/-- `sorted(records, key=lambda r: r.fullpath)` in `save_csv`
(modelled by stable insertion sort wrt the code-point key order). -/
def sortByPath (l : List FileRecord) : List FileRecord :=
  List.insertionSort pathLe l

/-- The list of `fullpath` keys of a table. -/
def keysOf (l : List FileRecord) : List String := l.map FileRecord.fullpath

theorem sortByPath_perm (l : List FileRecord) : (sortByPath l).Perm l :=
  List.perm_insertionSort pathLe l

theorem mem_sortByPath {r : FileRecord} {l : List FileRecord} :
    r ∈ sortByPath l ↔ r ∈ l :=
  (sortByPath_perm l).mem_iff

theorem sortByPath_sorted (l : List FileRecord) : List.Sorted pathLe (sortByPath l) :=
  List.sorted_insertionSort pathLe l

theorem pathLt_of_pathLe_ne {a b : FileRecord} (hle : pathLe a b)
    (hne : a.fullpath ≠ b.fullpath) : pathLt a b := by
  cases h : strLtb a.fullpath.data b.fullpath.data with
  | true => exact h
  | false =>
    exfalso
    have := strLtb_eq_of_not _ _ h hle
    exact hne (congrArg String.mk this)

theorem sorted_pathLt_of_nodup {l : List FileRecord}
    (hs : List.Sorted pathLe l) (hn : (keysOf l).Nodup) :
    List.Pairwise pathLt l := by
  have hpw : List.Pairwise (fun a b : FileRecord => a.fullpath ≠ b.fullpath) l := by
    have := (List.pairwise_map (f := FileRecord.fullpath)
      (R := fun a b : String => a ≠ b) (l := l)).mp hn
    exact this
  have hand := List.Pairwise.and hs hpw
  exact hand.imp (fun h => pathLt_of_pathLe_ne h.1 h.2)

theorem keys_nodup_of_perm {l₁ l₂ : List FileRecord} (hp : l₁.Perm l₂)
    (hn : (keysOf l₁).Nodup) : (keysOf l₂).Nodup :=
  ((hp.map FileRecord.fullpath).nodup_iff).mp hn

/-- Two tables that are permutations of each other with duplicate-free
keys are equal once sorted by path. -/
theorem sortByPath_eq_of_perm {l₁ l₂ : List FileRecord} (hp : l₁.Perm l₂)
    (hn : (keysOf l₁).Nodup) : sortByPath l₁ = sortByPath l₂ := by
  have h1 : List.Pairwise pathLt (sortByPath l₁) :=
    sorted_pathLt_of_nodup (sortByPath_sorted l₁)
      (keys_nodup_of_perm (sortByPath_perm l₁).symm hn)
  have h2 : List.Pairwise pathLt (sortByPath l₂) :=
    sorted_pathLt_of_nodup (sortByPath_sorted l₂)
      (keys_nodup_of_perm (hp.trans (sortByPath_perm l₂).symm) hn)
  exact List.eq_of_perm_of_sorted
    (((sortByPath_perm l₁).trans hp).trans (sortByPath_perm l₂).symm) h1 h2

/-- Whitespace as Python's `str.split(None)` and `\s` see it (ASCII range:
space, tab, newline, carriage return, vertical tab, form feed; the paths
this repository handles contain no non-ASCII whitespace). -/
def isPySpace (c : Char) : Bool :=
  c = ' ' || c = '\t' || c = '\n' || c = '\r' || c = '\x0B' || c = '\x0C'

/-- `line.split(None, maxsplit)`: runs of whitespace separate tokens,
leading whitespace is skipped, and once `maxsplit` splits were made the
remainder (leading whitespace stripped, embedded and trailing whitespace
kept) becomes the final token. -/
def pySplitAux : Nat → List Char → List (List Char)
  | 0, cs =>
    let cs1 := cs.dropWhile isPySpace
    if cs1 = [] then [] else [cs1]
  | k + 1, cs =>
    let cs1 := cs.dropWhile isPySpace
    if cs1 = [] then []
    else cs1.takeWhile (fun c => !isPySpace c) ::
      pySplitAux k (cs1.dropWhile (fun c => !isPySpace c))

/-- `line.split(None, maxsplit)` on a `String`. -/
def pySplitWs (s : String) (maxsplit : Nat) : List String :=
  (pySplitAux maxsplit s.data).map String.mk

/-- `fullpath.endswith("/")` — a string ends with `/` exactly when its last
character is `/`. -/
def endsWithSlash (s : String) : Bool := s.data.getLast? = some '/'

/-- `parse_s3_line` from `sync_keys.py` (lines 66-81): split the line on
whitespace into at most four fields, reject anything that is not exactly
four fields or whose path ends in `/`, and join date and time with one
space as the creation timestamp. -/
def parse_s3_line (line : String) : Option (String × String × String) :=
  let parts := pySplitWs line 3
  if parts.length ≠ 4 then none
  else
    let date := parts.getD 0 ""
    let time := parts.getD 1 ""
    let size := parts.getD 2 ""
    let fullpath := parts.getD 3 ""
    if endsWithSlash fullpath then none
    else some (date ++ " " ++ time, size, fullpath)

/-- `[A-Za-z0-9\-]`: the character class of the captured product run. -/
def isAlnumDash (c : Char) : Bool := c.isAlpha || c.isDigit || c = '-'

/-- ASCII case-insensitive character equality (`re.IGNORECASE` on the
ASCII-only markers of the product pattern). -/
def ciEq (a b : Char) : Bool := a.toLower = b.toLower

/-- Case-insensitive "starts with" on character lists. -/
def ciStarts : List Char → List Char → Bool
  | [], _ => true
  | _ :: _, [] => false
  | m :: ms, c :: cs => ciEq m c && ciStarts ms cs

/-- The marker alternation `(?:[0-9]|en_|v[0-9]|Build|Rel|dist)` of the
first product pattern, under `re.IGNORECASE`. -/
def markerMatch (cs : List Char) : Bool :=
  match cs with
  | [] => false
  | c :: rest =>
    c.isDigit
    || ciStarts ['e', 'n', '_'] (c :: rest)
    || (ciEq c 'v' && (match rest with | d :: _ => d.isDigit | [] => false))
    || ciStarts ['B', 'u', 'i', 'l', 'd'] (c :: rest)
    || ciStarts ['R', 'e', 'l'] (c :: rest)
    || ciStarts ['d', 'i', 's', 't'] (c :: rest)

/-- `\s+(?:[0-9]|en_|v[0-9]|Build|Rel|dist)`: at least one whitespace
character, then a marker.  (No marker alternative begins with whitespace,
so consuming the maximal whitespace run is exact.) -/
def restMatches1 (cs : List Char) : Bool :=
  match cs with
  | [] => false
  | c :: rest => isPySpace c && markerMatch (rest.dropWhile isPySpace)

/-- `[_\(]` after the captured run in the second product pattern. -/
def restMatches2 (cs : List Char) : Bool :=
  match cs with
  | [] => false
  | c :: _ => c = '_' || c = '('

/-- The lazy star `[A-Za-z0-9\-]*?`: at each position first try to match
the rest of the pattern (shortest capture wins), otherwise extend the
capture by one more run character. -/
def lazyCapture (restOk : List Char → Bool) (acc : List Char) :
    List Char → Option (List Char)
  | [] => none
  | c :: rest =>
    if restOk (c :: rest) then some acc
    else if isAlnumDash c then lazyCapture restOk (acc ++ [c]) rest
    else none

/-- First pattern attempt of `extract_type_and_product`:
`re.match(r'^([A-Za-z][A-Za-z0-9\-]*?)\s+(?:[0-9]|en_|v[0-9]|Build|Rel|dist)',
filename, re.IGNORECASE)`, returning `group(1)`. -/
def regexAttempt1 (filename : String) : Option String :=
  match filename.data with
  | [] => none
  | c :: rest =>
    if c.isAlpha then (lazyCapture restMatches1 [c] rest).map String.mk else none

/-- Second pattern attempt of `extract_type_and_product`:
`re.match(r'^([A-Za-z][A-Za-z0-9\-]*?)[_\(]', filename)`, returning
`group(1)`. -/
def regexAttempt2 (filename : String) : Option String :=
  match filename.data with
  | [] => none
  | c :: rest =>
    if c.isAlpha then (lazyCapture restMatches2 [c] rest).map String.mk else none

/-- `product.rstrip('-')`. -/
def rstripDash (s : String) : String :=
  String.mk (s.data.reverse.dropWhile (fun c => c = '-')).reverse

/-- `fullpath.split("/")` (Python semantics for a one-character separator:
an empty string yields one empty segment). -/
def splitSlashList : List Char → List (List Char)
  | [] => [[]]
  | c :: rest =>
    let r := splitSlashList rest
    if c = '/' then [] :: r
    else
      match r with
      | seg :: segs => (c :: seg) :: segs
      | [] => [[c]]

/-- `fullpath.split("/")` on a `String`. -/
def splitSlash (s : String) : List String := (splitSlashList s.data).map String.mk

/-- `extract_type_and_product` from `sync_keys.py` (lines 84-114): first
path segment is the type; with three or more segments the second segment
is the subfolder and the last is the filename, otherwise the subfolder is
empty and the second segment is the filename; then the two ordered regex
attempts, each stripping trailing hyphens from the capture. -/
def extract_type_and_product (fullpath : String) : Option (String × String × String) :=
  let parts := splitSlash fullpath
  if parts.length < 2 then none
  else
    let file_type := parts.getD 0 ""
    let subfolder := if parts.length ≥ 3 then parts.getD 1 "" else ""
    let filename := if parts.length ≥ 3 then parts.getLastD "" else parts.getD 1 ""
    match regexAttempt1 filename with
    | some product => some (file_type, subfolder, rstripDash product)
    | none =>
      match regexAttempt2 filename with
      | some product => some (file_type, subfolder, rstripDash product)
      | none => none

/-- The header row `save_csv` writes. -/
def headerRow : List String :=
  ["creation", "size", "fullpath", "added", "removed", "wayback_url"]

/-- `FileRecord.to_dict` laid out in `save_csv`'s field order. -/
def FileRecord.toRow (r : FileRecord) : List String :=
  [r.creation, r.size, r.fullpath, r.added, r.removed, r.wayback_url]

/-- `save_csv` from `sync_keys.py` (lines 139-150), at the row level (the
CSV quoting layer is Python's `csv` standard library, external to the
repository): a header row, then one row per record sorted by `fullpath`. -/
def save_csv (records : List FileRecord) : List (List String) :=
  headerRow :: (sortByPath records).map FileRecord.toRow

/-- One `csv.DictReader` row turned into a `FileRecord` as
`load_existing_csv` does: positional fields under the fixed header, with
`row.get(field, '')` for the last three, passed to `FileRecord.__init__`
(so an empty or missing `added` becomes `nowDate`, the load-time current
date). -/
def rowRecord (nowDate : String) (row : List String) : FileRecord :=
  FileRecord.mkPy nowDate (row.getD 0 "") (row.getD 1 "") (row.getD 2 "")
    (some (row.getD 3 "")) (some (row.getD 4 "")) (some (row.getD 5 ""))

/-- `records[fullpath] = record` on a Python dict: overwrite in place if
the key exists, otherwise append. -/
def dictInsert (acc : List FileRecord) (r : FileRecord) : List FileRecord :=
  if acc.any (fun x => x.fullpath = r.fullpath)
  then acc.map (fun x => if x.fullpath = r.fullpath then r else x)
  else acc ++ [r]

/-- `load_existing_csv` from `sync_keys.py` (lines 117-136), at the row
level: skip the header row and build the dict keyed by `fullpath`; the
result is the dict's records in insertion order. -/
def load_existing_csv (nowDate : String) (rows : List (List String)) : List FileRecord :=
  match rows with
  | [] => []
  | _header :: dataRows =>
    dataRows.foldl (fun acc row => dictInsert acc (rowRecord nowDate row)) []

/-- One entry of the `file_data` dict built in `sync_files`:
`file_data[fullpath] = (creation, size)`. -/
structure SnapEntry where
  fullpath : String
  creation : String
  size : String
deriving DecidableEq

/-- `fullpath in current_files` for the parsed snapshot. -/
def snapHasPath (fileData : List SnapEntry) (p : String) : Bool :=
  fileData.any (fun e => e.fullpath = p)

/-- `fullpath in existing_records` / `existing_records[fullpath]` on the
table (a dict keyed by `fullpath`). -/
def findRecord (records : List FileRecord) (p : String) : Option FileRecord :=
  records.find? (fun r => decide (r.fullpath = p))

/-- The body of `sync_files`' first loop (lines 186-197): a path already
in the table gets its `creation`/`size` overwritten in place; a new path
gets a fresh record with `added = added_date`. -/
def updateEntry (existingRecords : List FileRecord) (today addedDate : String)
    (e : SnapEntry) : FileRecord :=
  match findRecord existingRecords e.fullpath with
  | some r => { r with creation := e.creation, size := e.size }
  | none => FileRecord.mkPy today e.creation e.size e.fullpath (some addedDate) none none

/-- The body of `sync_files`' second loop (lines 199-205): a record whose
path is absent from the snapshot gets `removed = today` if `removed` was
empty, and is carried over unchanged otherwise. -/
def markRemoved (today : String) (r : FileRecord) : FileRecord :=
  if r.removed = "" then { r with removed := today } else r

/-- The records of the previous table whose path is absent from the
current snapshot. -/
def absentRecords (fileData : List SnapEntry) (existingRecords : List FileRecord) :
    List FileRecord :=
  existingRecords.filter (fun r => !snapHasPath fileData r.fullpath)

/-- The reconciliation core of `sync_files` from `sync_keys.py`
(lines 179-209), with the parsed snapshot (`file_data` as a list of dict
entries with distinct paths), the loaded table and the run date as
parameters.  Returns the saved table (sorted by `fullpath`, as `save_csv`
writes it) together with the `new_urls` and `removed_urls` counters.
The Python loops iterate a set and a dict whose order the saved sorted
table makes immaterial. -/
def sync_files (fileData : List SnapEntry) (existingRecords : List FileRecord)
    (initialCrawl : Bool) (today : String) : List FileRecord × Nat × Nat :=
  let isInitialCrawl := initialCrawl || existingRecords.isEmpty
  let addedDate := if isInitialCrawl then "initial crawl" else today
  let updatedPresent := fileData.map (updateEntry existingRecords today addedDate)
  let newUrls := (fileData.filter (fun e => (findRecord existingRecords e.fullpath).isNone)).length
  let retainedAbsent :=
    if isInitialCrawl then []
    else (absentRecords fileData existingRecords).map (markRemoved today)
  let removedUrls :=
    if isInitialCrawl then 0
    else ((absentRecords fileData existingRecords).filter (fun r => r.removed = "")).length
  (sortByPath (updatedPresent ++ retainedAbsent), newUrls, removedUrls)

/-- The archiving endpoint's possible answers for one record, as
`archive_files.main` distinguishes them: success carries the optional
`Content-Location` header and the final resolved URL; an HTTP error
carries its status code; anything else is a generic error. -/
inductive HttpOutcome
  | success (contentLocation : Option String) (finalUrl : String)
  | httpError (code : Nat)
  | otherError
deriving DecidableEq

/-- Observable events of the submission loop: an archiving attempt for a
path, and a sleep of a number of seconds. -/
inductive ArchiveEvent
  | attempt (fullpath : String)
  | sleep (seconds : Nat)
deriving DecidableEq

/-- The per-record loop of `archive_files.main` (lines 44-93), without the
wall-clock timeout: rows with a non-empty `wayback_url` are counted as
skipped; rows with a non-empty `removed` are passed over uncounted; the
rest are submitted.  Success stores the wayback URL and sleeps 2; HTTP 429
sleeps 60 and `continue`s to the next row; any other error sleeps 2 and
leaves the row pending.  Returns the final rows, the event trace, and the
`archived` and `skipped` counters. -/
def archiveLoop (resp : String → HttpOutcome) :
    List FileRecord → List FileRecord × List ArchiveEvent × Nat × Nat
  | [] => ([], [], 0, 0)
  | row :: rest =>
    if row.wayback_url ≠ "" then
      let out := archiveLoop resp rest
      (row :: out.1, out.2.1, out.2.2.1, out.2.2.2 + 1)
    else if row.removed ≠ "" then
      let out := archiveLoop resp rest
      (row :: out.1, out.2.1, out.2.2.1, out.2.2.2)
    else
      match resp row.fullpath with
      | HttpOutcome.success contentLocation finalUrl =>
        let newUrl :=
          match contentLocation with
          | some loc => "https://web.archive.org" ++ loc
          | none => finalUrl
        let out := archiveLoop resp rest
        ({ row with wayback_url := newUrl } :: out.1,
          ArchiveEvent.attempt row.fullpath :: ArchiveEvent.sleep 2 :: out.2.1,
          out.2.2.1 + 1, out.2.2.2)
      | HttpOutcome.httpError code =>
        if code = 429 then
          let out := archiveLoop resp rest
          (row :: out.1,
            ArchiveEvent.attempt row.fullpath :: ArchiveEvent.sleep 60 :: out.2.1,
            out.2.2.1, out.2.2.2)
        else
          let out := archiveLoop resp rest
          (row :: out.1,
            ArchiveEvent.attempt row.fullpath :: ArchiveEvent.sleep 2 :: out.2.1,
            out.2.2.1, out.2.2.2)
      | HttpOutcome.otherError =>
        let out := archiveLoop resp rest
        (row :: out.1,
          ArchiveEvent.attempt row.fullpath :: ArchiveEvent.sleep 2 :: out.2.1,
          out.2.2.1, out.2.2.2)

theorem findRecord_key {l : List FileRecord} {p : String} {r : FileRecord}
    (h : findRecord l p = some r) : r.fullpath = p := by
  have := List.find?_some h
  simpa using this

theorem findRecord_mem {l : List FileRecord} {p : String} {r : FileRecord}
    (h : findRecord l p = some r) : r ∈ l :=
  List.mem_of_find?_eq_some h

theorem findRecord_eq_some_of_mem {l : List FileRecord} {r : FileRecord}
    (hn : (keysOf l).Nodup) (hm : r ∈ l) : findRecord l r.fullpath = some r := by
  induction l with
  | nil => cases hm
  | cons x xs ih =>
    simp only [keysOf, List.map_cons, List.nodup_cons] at hn
    rcases List.mem_cons.mp hm with h | h
    · subst h
      simp [findRecord]
    · have hx : x.fullpath ≠ r.fullpath := by
        intro hEq
        exact hn.1 (hEq ▸ List.mem_map_of_mem FileRecord.fullpath h)
      unfold findRecord
      rw [List.find?_cons_of_neg _ (by simpa using hx)]
      exact ih hn.2 h

theorem snapHasPath_iff {fd : List SnapEntry} {p : String} :
    snapHasPath fd p = true ↔ ∃ e ∈ fd, e.fullpath = p := by
  simp [snapHasPath, List.any_eq_true]

theorem snapHasPath_of_mem {fd : List SnapEntry} {e : SnapEntry} (he : e ∈ fd) :
    snapHasPath fd e.fullpath = true :=
  snapHasPath_iff.mpr ⟨e, he, rfl⟩

theorem updateEntry_fullpath (ex : List FileRecord) (today addedDate : String)
    (e : SnapEntry) : (updateEntry ex today addedDate e).fullpath = e.fullpath := by
  unfold updateEntry
  cases h : findRecord ex e.fullpath with
  | none => rfl
  | some r => simpa using findRecord_key h

theorem updateEntry_creation (ex : List FileRecord) (today addedDate : String)
    (e : SnapEntry) : (updateEntry ex today addedDate e).creation = e.creation := by
  unfold updateEntry
  cases h : findRecord ex e.fullpath with
  | none => rfl
  | some r => rfl

theorem updateEntry_size (ex : List FileRecord) (today addedDate : String)
    (e : SnapEntry) : (updateEntry ex today addedDate e).size = e.size := by
  unfold updateEntry
  cases h : findRecord ex e.fullpath with
  | none => rfl
  | some r => rfl

theorem markRemoved_fullpath (today : String) (r : FileRecord) :
    (markRemoved today r).fullpath = r.fullpath := by
  unfold markRemoved
  split <;> rfl

theorem markRemoved_removed_ne {today : String} (ht : today ≠ "") (r : FileRecord) :
    (markRemoved today r).removed ≠ "" := by
  unfold markRemoved
  split
  · exact ht
  · next h => exact h

theorem mem_absentRecords {fd : List SnapEntry} {ex : List FileRecord} {r : FileRecord} :
    r ∈ absentRecords fd ex ↔ r ∈ ex ∧ snapHasPath fd r.fullpath = false := by
  simp [absentRecords, List.mem_filter]

theorem keys_updated (fd : List SnapEntry) (ex : List FileRecord) (today addedDate : String) :
    keysOf (fd.map (updateEntry ex today addedDate)) = fd.map SnapEntry.fullpath := by
  simp only [keysOf, List.map_map]
  exact List.map_congr_left (fun e he => updateEntry_fullpath ex today addedDate e)

theorem keys_marked (today : String) (l : List FileRecord) :
    keysOf (l.map (markRemoved today)) = keysOf l := by
  simp only [keysOf, List.map_map]
  exact List.map_congr_left (fun r hr => markRemoved_fullpath today r)

theorem keysOf_append (l₁ l₂ : List FileRecord) :
    keysOf (l₁ ++ l₂) = keysOf l₁ ++ keysOf l₂ := by
  simp [keysOf]

theorem keys_absent_nodup {fd : List SnapEntry} {ex : List FileRecord}
    (hE : (keysOf ex).Nodup) : (keysOf (absentRecords fd ex)).Nodup := by
  have hsub : List.Sublist (keysOf (absentRecords fd ex)) (keysOf ex) :=
    (List.filter_sublist ex).map FileRecord.fullpath
  exact hE.sublist hsub

theorem mem_keys_marked_absent {fd : List SnapEntry} {ex : List FileRecord}
    {p today : String}
    (h : p ∈ keysOf ((absentRecords fd ex).map (markRemoved today))) :
    snapHasPath fd p = false := by
  rw [keys_marked] at h
  rcases List.mem_map.mp h with ⟨r, hr, hkey⟩
  exact hkey ▸ (mem_absentRecords.mp hr).2

/-- `sync_files` with its `let` chain unfolded. -/
theorem sync_files_def (fd : List SnapEntry) (ex : List FileRecord)
    (ic : Bool) (today : String) :
    sync_files fd ex ic today =
      (sortByPath
        (fd.map (updateEntry ex today (if ic || ex.isEmpty then "initial crawl" else today)) ++
          (if ic || ex.isEmpty then []
           else (absentRecords fd ex).map (markRemoved today))),
       (fd.filter (fun e => (findRecord ex e.fullpath).isNone)).length,
       if ic || ex.isEmpty then 0
       else ((absentRecords fd ex).filter (fun r => r.removed = "")).length) := rfl

theorem sync_out_keys_nodup (fd : List SnapEntry) (ex : List FileRecord)
    (ic : Bool) (today : String)
    (hS : (fd.map SnapEntry.fullpath).Nodup) (hE : (keysOf ex).Nodup) :
    (keysOf (sync_files fd ex ic today).1).Nodup := by
  rw [sync_files_def]
  set ad := if ic || ex.isEmpty then "initial crawl" else today with had
  set A := if ic || ex.isEmpty then []
    else (absentRecords fd ex).map (markRemoved today) with hA
  have hP : (keysOf (fd.map (updateEntry ex today ad))).Nodup := by
    rw [keys_updated]
    exact hS
  have hAn : (keysOf A).Nodup := by
    rw [hA]
    split
    · simp [keysOf]
    · rw [keys_marked]
      exact keys_absent_nodup hE
  have hDisj : (keysOf (fd.map (updateEntry ex today ad))).Disjoint (keysOf A) := by
    intro p hp hpa
    have hmem : snapHasPath fd p = true := by
      rw [keys_updated] at hp
      rcases List.mem_map.mp hp with ⟨e, he, hkey⟩
      exact hkey ▸ snapHasPath_of_mem he
    rw [hA] at hpa
    cases hc : (ic || ex.isEmpty) with
    | true => simp [hc, keysOf] at hpa
    | false =>
      rw [if_neg (by simp [hc])] at hpa
      have := mem_keys_marked_absent hpa
      rw [hmem] at this
      exact absurd this (by simp)
  have hsp := sortByPath_perm
    (fd.map (updateEntry ex today ad) ++ A)
  refine keys_nodup_of_perm hsp.symm ?_
  rw [keysOf_append]
  exact List.nodup_append.mpr ⟨hP, hAn, hDisj⟩

theorem updateEntry_cases (ex : List FileRecord) (today addedDate : String) (e : SnapEntry) :
    (∃ r, findRecord ex e.fullpath = some r ∧
      updateEntry ex today addedDate e = { r with creation := e.creation, size := e.size }) ∨
    (findRecord ex e.fullpath = none ∧
      updateEntry ex today addedDate e =
        FileRecord.mkPy today e.creation e.size e.fullpath (some addedDate) none none) := by
  unfold updateEntry
  cases h : findRecord ex e.fullpath with
  | some r => exact Or.inl ⟨r, rfl, rfl⟩
  | none => exact Or.inr ⟨rfl, rfl⟩

theorem mem_sync_out_left {fd : List SnapEntry} {ex : List FileRecord}
    {ic : Bool} {today : String} {e : SnapEntry} (he : e ∈ fd) :
    updateEntry ex today (if ic || ex.isEmpty then "initial crawl" else today) e ∈
      (sync_files fd ex ic today).1 := by
  rw [sync_files_def, mem_sortByPath]
  exact List.mem_append_left _ (List.mem_map_of_mem _ he)

theorem mem_sync_out_right {fd : List SnapEntry} {ex : List FileRecord}
    {ic : Bool} {today : String} {r : FileRecord}
    (hc : (ic || ex.isEmpty) = false) (hr : r ∈ absentRecords fd ex) :
    markRemoved today r ∈ (sync_files fd ex ic today).1 := by
  rw [sync_files_def, mem_sortByPath]
  refine List.mem_append_right _ ?_
  rw [if_neg (by simp [hc])]
  exact List.mem_map_of_mem _ hr

theorem pyOr_self (v : String) : pyOrStr (some v) "" = v := by
  show (if v = "" then "" else v) = v
  split
  · next h => rw [h]
  · rfl

theorem pyOr_ne (v d : String) (h : v ≠ "") : pyOrStr (some v) d = v := by
  show (if v = "" then d else v) = v
  rw [if_neg h]

theorem rowRecord_added_ne {nowDate : String} (hnow : nowDate ≠ "") (row : List String) :
    (rowRecord nowDate row).added ≠ "" := by
  unfold rowRecord FileRecord.mkPy pyOrStr
  dsimp only
  split
  · exact hnow
  · next h => exact h

theorem mem_dictInsert {acc : List FileRecord} {r x : FileRecord}
    (h : x ∈ dictInsert acc r) : x ∈ acc ∨ x = r := by
  unfold dictInsert at h
  split at h
  · rcases List.mem_map.mp h with ⟨y, hy, hxy⟩
    by_cases hk : y.fullpath = r.fullpath
    · rw [if_pos hk] at hxy
      exact Or.inr hxy.symm
    · rw [if_neg hk] at hxy
      exact Or.inl (hxy ▸ hy)
  · rcases List.mem_append.mp h with h2 | h2
    · exact Or.inl h2
    · simp only [List.mem_singleton] at h2
      exact Or.inr h2

theorem load_foldl_added (nowDate : String) (hnow : nowDate ≠ "")
    (dataRows : List (List String)) :
    ∀ acc, (∀ r ∈ acc, r.added ≠ "") →
      ∀ x ∈ dataRows.foldl (fun a row => dictInsert a (rowRecord nowDate row)) acc,
        x.added ≠ "" := by
  induction dataRows with
  | nil => exact fun acc hacc x hx => hacc x hx
  | cons row rs ih =>
    intro acc hacc x hx
    simp only [List.foldl_cons] at hx
    refine ih (dictInsert acc (rowRecord nowDate row)) ?_ x hx
    intro r hr
    rcases mem_dictInsert hr with h | h
    · exact hacc r h
    · rw [h]
      exact rowRecord_added_ne hnow row

theorem rowRecord_toRow (nowDate : String) (r : FileRecord) (h : r.added ≠ "") :
    rowRecord nowDate (FileRecord.toRow r) = r := by
  unfold rowRecord FileRecord.toRow FileRecord.mkPy
  simp only [List.getD_cons_zero, List.getD_cons_succ]
  rw [pyOr_ne _ _ h, pyOr_self, pyOr_self]

theorem dictInsert_append {acc : List FileRecord} {r : FileRecord}
    (h : ∀ x ∈ acc, x.fullpath ≠ r.fullpath) : dictInsert acc r = acc ++ [r] := by
  unfold dictInsert
  rw [if_neg ?_]
  intro hany
  rcases List.any_eq_true.mp hany with ⟨x, hx, hkey⟩
  exact h x hx (by simpa using hkey)

theorem load_save_aux (nowDate : String) (rs : List FileRecord) :
    ∀ acc, (keysOf (acc ++ rs)).Nodup → (∀ r ∈ rs, r.added ≠ "") →
      (rs.map FileRecord.toRow).foldl
        (fun a row => dictInsert a (rowRecord nowDate row)) acc = acc ++ rs := by
  induction rs with
  | nil => intro acc _ _; simp
  | cons r rs ih =>
    intro acc hnd hadd
    simp only [List.map_cons, List.foldl_cons]
    rw [rowRecord_toRow nowDate r (hadd r (List.mem_cons_self r rs))]
    have hne : ∀ x ∈ acc, x.fullpath ≠ r.fullpath := by
      intro x hx hkeq
      rw [keysOf_append] at hnd
      rcases List.nodup_append.mp hnd with ⟨h1, h2, hdisj⟩
      have hxk : x.fullpath ∈ keysOf acc :=
        List.mem_map_of_mem FileRecord.fullpath hx
      have hrk : x.fullpath ∈ keysOf (r :: rs) := by
        rw [hkeq]
        exact List.mem_map_of_mem FileRecord.fullpath (List.mem_cons_self r rs)
      exact hdisj hxk hrk
    rw [dictInsert_append hne]
    have hassoc : (acc ++ [r]) ++ rs = acc ++ r :: rs := by simp
    rw [ih (acc ++ [r]) (by rw [hassoc]; exact hnd)
      (fun x hx => hadd x (List.mem_cons_of_mem r hx))]
    exact hassoc

/-- C6 counterexample: with two pending records `a` and `b` where the
endpoint answers 429 for `a`, the loop's trace is
attempt a, sleep 60, attempt b, sleep 2 — after the 429 the submitter
advances to `b`; record `a` is attempted exactly once, not retried. -/
theorem rate_limit_advances_counterexample :
    archiveLoop (fun p => if p = "a" then HttpOutcome.httpError 429
        else HttpOutcome.success none "https://final/b")
      [⟨"c", "1", "a", "d", "", ""⟩, ⟨"c", "1", "b", "d", "", ""⟩] =
      ([⟨"c", "1", "a", "d", "", ""⟩, ⟨"c", "1", "b", "d", "", "https://final/b"⟩],
        [ArchiveEvent.attempt "a", ArchiveEvent.sleep 60,
          ArchiveEvent.attempt "b", ArchiveEvent.sleep 2], 1, 0) ∧
    List.count (ArchiveEvent.attempt "a")
      [ArchiveEvent.attempt "a", ArchiveEvent.sleep 60,
        ArchiveEvent.attempt "b", ArchiveEvent.sleep 2] = 1 := by
  exact ⟨by decide, by decide⟩

/-- C6 (amended): when the archiving endpoint answers HTTP 429 for a
pending record, the submitter sleeps 60 time units and then advances to
the next record without retrying: the rate-limited record is left
unchanged (pending, to be retried on a future run) and neither the
archived nor the skipped counter changes (the loop counts no failures at
all: its stats always report `failed=0`). -/
theorem rate_limited_sleeps_then_advances (resp : String → HttpOutcome)
    (row : FileRecord) (rest : List FileRecord)
    (hw : row.wayback_url = "") (hr : row.removed = "")
    (h429 : resp row.fullpath = HttpOutcome.httpError 429) :
    archiveLoop resp (row :: rest) =
      (row :: (archiveLoop resp rest).1,
        ArchiveEvent.attempt row.fullpath :: ArchiveEvent.sleep 60 ::
          (archiveLoop resp rest).2.1,
        (archiveLoop resp rest).2.2.1, (archiveLoop resp rest).2.2.2) := by
  simp [archiveLoop, hw, hr, h429]

/-- C6 witness: one pending record rate-limited by every response. -/
theorem rate_limited_sleeps_then_advances_witness :
    (((⟨"c", "1", "a", "d", "", ""⟩ : FileRecord).wayback_url = "" ∧
      (⟨"c", "1", "a", "d", "", ""⟩ : FileRecord).removed = "" ∧
      (fun _ : String => HttpOutcome.httpError 429)
        (⟨"c", "1", "a", "d", "", ""⟩ : FileRecord).fullpath =
          HttpOutcome.httpError 429) ∧
    archiveLoop (fun _ => HttpOutcome.httpError 429) [⟨"c", "1", "a", "d", "", ""⟩] =
      (⟨"c", "1", "a", "d", "", ""⟩ ::
          (archiveLoop (fun _ => HttpOutcome.httpError 429) []).1,
        ArchiveEvent.attempt (⟨"c", "1", "a", "d", "", ""⟩ : FileRecord).fullpath ::
          ArchiveEvent.sleep 60 ::
            (archiveLoop (fun _ => HttpOutcome.httpError 429) []).2.1,
        (archiveLoop (fun _ => HttpOutcome.httpError 429) []).2.2.1,
        (archiveLoop (fun _ => HttpOutcome.httpError 429) []).2.2.2)) :=
  ⟨⟨rfl, rfl, rfl⟩,
    rate_limited_sleeps_then_advances (fun _ => HttpOutcome.httpError 429)
      ⟨"c", "1", "a", "d", "", ""⟩ [] rfl rfl rfl⟩

/-- C10: loading the persisted table never yields a record with an empty
`added` field (given the load-time current date is non-empty, as a
`strftime` date always is): a row whose `added` column is empty (or
missing, which `row.get` turns into the empty default) loads with `added`
replaced by the current date, while the `removed` and `wayback_url`
columns — empty or not — are preserved exactly. -/
theorem load_replaces_empty_added (nowDate : String) (rows : List (List String))
    (row : List String) (hnow : nowDate ≠ "") :
    (∀ r ∈ load_existing_csv nowDate rows, r.added ≠ "") ∧
    (rowRecord nowDate row).added =
      (if row.getD 3 "" = "" then nowDate else row.getD 3 "") ∧
    (rowRecord nowDate row).removed = row.getD 4 "" ∧
    (rowRecord nowDate row).wayback_url = row.getD 5 "" := by
  refine ⟨?_, rfl, pyOr_self _, pyOr_self _⟩
  intro r hr
  unfold load_existing_csv at hr
  cases rows with
  | nil => cases hr
  | cons header dataRows =>
    exact load_foldl_added nowDate hnow dataRows [] (by intro x hx; cases hx) r hr

/-- C10 witness: a row with empty `added` loads with the current date;
its empty `removed` and non-empty `wayback_url` are preserved. -/
theorem load_replaces_empty_added_witness :
    (("2024-09-09" : String) ≠ "") ∧
    ((∀ r ∈ load_existing_csv "2024-09-09"
        [["creation", "size", "fullpath", "added", "removed", "wayback_url"],
         ["c", "s", "x", "", "", "w"]], r.added ≠ "") ∧
      (rowRecord "2024-09-09" ["c", "s", "x", "", "", "w"]).added =
        (if (["c", "s", "x", "", "", "w"].getD 3 "" : String) = "" then "2024-09-09"
         else ["c", "s", "x", "", "", "w"].getD 3 "") ∧
      (rowRecord "2024-09-09" ["c", "s", "x", "", "", "w"]).removed =
        ["c", "s", "x", "", "", "w"].getD 4 "" ∧
      (rowRecord "2024-09-09" ["c", "s", "x", "", "", "w"]).wayback_url =
        ["c", "s", "x", "", "", "w"].getD 5 "") :=
  ⟨by decide, load_replaces_empty_added "2024-09-09"
    [["creation", "size", "fullpath", "added", "removed", "wayback_url"],
     ["c", "s", "x", "", "", "w"]] ["c", "s", "x", "", "", "w"] (by decide)⟩

/-- C8: saving a table and loading it back yields a record set equal in
all six fields to the original — for tables satisfying the data model's
invariants: paths are unique (the table is a dict keyed by `fullpath`)
and every `added` field is non-empty (as `FileRecord.__init__` always
ensures).  The loaded list is a permutation (the saved file is re-sorted
by path) with every record identical field-for-field. -/
theorem save_load_roundtrip (records : List FileRecord) (nowDate : String)
    (hkeys : (keysOf records).Nodup)
    (hadded : ∀ r ∈ records, r.added ≠ "") :
    (load_existing_csv nowDate (save_csv records)).Perm records := by
  have hperm := sortByPath_perm records
  have hnd : (keysOf (([] : List FileRecord) ++ sortByPath records)).Nodup := by
    simpa using keys_nodup_of_perm hperm.symm hkeys
  have hadd2 : ∀ r ∈ sortByPath records, r.added ≠ "" := fun r hr =>
    hadded r (mem_sortByPath.mp hr)
  show (List.foldl (fun acc row => dictInsert acc (rowRecord nowDate row)) []
      ((sortByPath records).map FileRecord.toRow)).Perm records
  rw [load_save_aux nowDate (sortByPath records) [] hnd hadd2]
  simpa using hperm

/-- C8 witness: a two-record table round-trips to a permutation of
itself. -/
theorem save_load_roundtrip_witness :
    ((keysOf [(⟨"c", "s", "x", "2024-01-01", "", ""⟩ : FileRecord),
        ⟨"c", "s", "a", "2024-01-01", "", "w"⟩]).Nodup ∧
      ∀ r ∈ [(⟨"c", "s", "x", "2024-01-01", "", ""⟩ : FileRecord),
        ⟨"c", "s", "a", "2024-01-01", "", "w"⟩], r.added ≠ "") ∧
    (load_existing_csv "2024-09-09" (save_csv
        [⟨"c", "s", "x", "2024-01-01", "", ""⟩,
         ⟨"c", "s", "a", "2024-01-01", "", "w"⟩])).Perm
      [⟨"c", "s", "x", "2024-01-01", "", ""⟩,
       ⟨"c", "s", "a", "2024-01-01", "", "w"⟩] :=
  ⟨⟨by decide, by decide⟩,
    save_load_roundtrip
      [⟨"c", "s", "x", "2024-01-01", "", ""⟩, ⟨"c", "s", "a", "2024-01-01", "", "w"⟩]
      "2024-09-09" (by decide) (by decide)⟩

theorem space_cases {c : Char} (h : isPySpace c = true) :
    c = ' ' ∨ c = '\t' ∨ c = '\n' ∨ c = '\r' ∨ c = '\x0B' ∨ c = '\x0C' := by
  unfold isPySpace at h
  simp only [Bool.or_eq_true, decide_eq_true_eq] at h
  tauto

theorem alnumDash_not_space {c : Char} (h : isAlnumDash c = true) : isPySpace c = false := by
  cases hc : isPySpace c with
  | false => rfl
  | true =>
    exfalso
    rcases space_cases hc with h1 | h1 | h1 | h1 | h1 | h1 <;>
      · subst h1
        exact absurd h (by decide)

theorem marker_head_not_space {c : Char} {rest : List Char}
    (h : markerMatch (c :: rest) = true) : isPySpace c = false := by
  cases hc : isPySpace c with
  | false => rfl
  | true =>
    exfalso
    unfold markerMatch at h
    simp only [Bool.or_eq_true] at h
    rcases h with ((((hd | he) | hv) | hb) | hr2) | hdi
    · rcases space_cases hc with h1 | h1 | h1 | h1 | h1 | h1 <;>
        · subst h1
          exact absurd hd (by decide)
    · unfold ciStarts at he
      rw [Bool.and_eq_true] at he
      have := he.1
      rcases space_cases hc with h1 | h1 | h1 | h1 | h1 | h1 <;>
        · subst h1
          exact absurd this (by decide)
    · rw [Bool.and_eq_true] at hv
      have := hv.1
      rcases space_cases hc with h1 | h1 | h1 | h1 | h1 | h1 <;>
        · subst h1
          exact absurd this (by decide)
    · unfold ciStarts at hb
      rw [Bool.and_eq_true] at hb
      have := hb.1
      rcases space_cases hc with h1 | h1 | h1 | h1 | h1 | h1 <;>
        · subst h1
          exact absurd this (by decide)
    · unfold ciStarts at hr2
      rw [Bool.and_eq_true] at hr2
      have := hr2.1
      rcases space_cases hc with h1 | h1 | h1 | h1 | h1 | h1 <;>
        · subst h1
          exact absurd this (by decide)
    · unfold ciStarts at hdi
      rw [Bool.and_eq_true] at hdi
      have := hdi.1
      rcases space_cases hc with h1 | h1 | h1 | h1 | h1 | h1 <;>
        · subst h1
          exact absurd this (by decide)

theorem markerMatch_stable {rest : List Char} (h : markerMatch rest = true) :
    rest.dropWhile isPySpace = rest := by
  cases rest with
  | nil => rfl
  | cons c r =>
    rw [List.dropWhile_cons, if_neg (by simp [marker_head_not_space h])]

theorem dropWhile_all_space_append (sp rest : List Char)
    (hsp : ∀ x ∈ sp, isPySpace x = true)
    (hrest : rest.dropWhile isPySpace = rest) :
    (sp ++ rest).dropWhile isPySpace = rest := by
  induction sp with
  | nil => simpa using hrest
  | cons s sp' ih =>
    rw [List.cons_append, List.dropWhile_cons,
      if_pos (by simp [hsp s (List.mem_cons_self s sp')])]
    exact ih (fun x hx => hsp x (List.mem_cons_of_mem s hx))

theorem restMatches1_cons_false {x : Char} {t : List Char} (hx : isPySpace x = false) :
    restMatches1 (x :: t) = false := by
  show (isPySpace x && markerMatch (t.dropWhile isPySpace)) = false
  rw [hx]
  rfl

theorem restMatches1_space_marker (sp rest : List Char) (hspne : sp ≠ [])
    (hsp : ∀ x ∈ sp, isPySpace x = true) (hm : markerMatch rest = true) :
    restMatches1 (sp ++ rest) = true := by
  cases sp with
  | nil => exact absurd rfl hspne
  | cons s0 sp' =>
    have h0 : isPySpace s0 = true := hsp s0 (List.mem_cons_self s0 sp')
    have hdrop : (sp' ++ rest).dropWhile isPySpace = rest :=
      dropWhile_all_space_append sp' rest
        (fun x hx => hsp x (List.mem_cons_of_mem s0 hx)) (markerMatch_stable hm)
    show (isPySpace s0 && markerMatch ((sp' ++ rest).dropWhile isPySpace)) = true
    rw [h0, hdrop, hm]
    rfl

theorem lazyCapture1_run (sp rest : List Char) (hspne : sp ≠ [])
    (hsp : ∀ x ∈ sp, isPySpace x = true) (hm : markerMatch rest = true) :
    ∀ (run acc : List Char), (∀ x ∈ run, isAlnumDash x = true) →
      lazyCapture restMatches1 acc (run ++ (sp ++ rest)) = some (acc ++ run) := by
  have hrm : restMatches1 (sp ++ rest) = true :=
    restMatches1_space_marker sp rest hspne hsp hm
  intro run
  induction run with
  | nil =>
    intro acc hrun
    rw [List.nil_append]
    cases hsr : sp ++ rest with
    | nil =>
      rw [hsr] at hrm
      exact absurd hrm (by decide)
    | cons y ys =>
      rw [hsr] at hrm
      unfold lazyCapture
      rw [if_pos (by simp [hrm])]
      rw [List.append_nil]
  | cons x run' ih =>
    intro acc hrun
    have hx : isAlnumDash x = true := hrun x (List.mem_cons_self x run')
    have hxs : isPySpace x = false := alnumDash_not_space hx
    rw [List.cons_append]
    unfold lazyCapture
    rw [if_neg (by simp [restMatches1_cons_false hxs]), if_pos (by simp [hx])]
    rw [ih (acc ++ [x]) (fun y hy => hrun y (List.mem_cons_of_mem x hy))]
    simp

theorem pySplitAux_length (k : Nat) : ∀ cs, (pySplitAux k cs).length ≤ k + 1 := by
  induction k with
  | zero =>
    intro cs
    unfold pySplitAux
    dsimp only
    split
    · simp
    · simp
  | succ n ih =>
    intro cs
    unfold pySplitAux
    dsimp only
    split
    · simp
    · simp only [List.length_cons]
      exact Nat.succ_le_succ (ih _)

theorem list_length_four {α : Type} {l : List α} (h : l.length = 4) :
    ∃ a b c d, l = [a, b, c, d] := by
  rcases l with _ | ⟨a, _ | ⟨b, _ | ⟨c, _ | ⟨d, _ | ⟨e, tl⟩⟩⟩⟩⟩ <;>
    simp_all

theorem updateEntry_of_found {ex : List FileRecord} {e : SnapEntry} {r : FileRecord}
    (h : findRecord ex e.fullpath = some r) (today ad : String) :
    updateEntry ex today ad e = { r with creation := e.creation, size := e.size } := by
  unfold updateEntry
  rw [h]

theorem update_cs_self (r : FileRecord) (c s : String)
    (hc : r.creation = c) (hs : r.size = s) :
    ({ r with creation := c, size := s } : FileRecord) = r := by
  cases r
  simp_all

/-- C2: reconciliation is idempotent: with a snapshot and a previous table
whose keys are duplicate-free (both are dicts), a nonempty previous table
(so the run is in non-initial-crawl mode), and a non-empty run date (as
`strftime` always produces), reconciling the output of a reconciliation
with the identical snapshot and the same run date returns that output
unchanged, with zero newly-created and zero newly-removed records. -/
theorem sync_files_idempotent (fileData : List SnapEntry)
    (existingRecords : List FileRecord) (today : String)
    (hS : (fileData.map SnapEntry.fullpath).Nodup)
    (hE : (keysOf existingRecords).Nodup)
    (hne : existingRecords ≠ [])
    (ht : today ≠ "") :
    sync_files fileData (sync_files fileData existingRecords false today).1 false today =
      ((sync_files fileData existingRecords false today).1, 0, 0) := by
  have hE0 : existingRecords.isEmpty = false := by
    cases existingRecords with
    | nil => exact absurd rfl hne
    | cons a l => rfl
  have hcond1 : ¬ ((false || existingRecords.isEmpty) = true) := by simp [hE0]
  set P := fileData.map (updateEntry existingRecords today today) with hPdef
  set A := (absentRecords fileData existingRecords).map (markRemoved today) with hAdef
  set T1 := (sync_files fileData existingRecords false today).1 with hT1def
  have hT1 : T1 = sortByPath (P ++ A) := by
    rw [hT1def, sync_files_def]
    dsimp only
    rw [if_neg hcond1, if_neg hcond1, hPdef, hAdef]
  have hkP : keysOf P = fileData.map SnapEntry.fullpath := by
    rw [hPdef]
    exact keys_updated fileData existingRecords today today
  have hAmem : ∀ a ∈ A, snapHasPath fileData a.fullpath = false ∧ a.removed ≠ "" := by
    intro a ha
    rw [hAdef] at ha
    rcases List.mem_map.mp ha with ⟨r, hr, hmr⟩
    refine ⟨?_, ?_⟩
    · rw [← hmr, markRemoved_fullpath]
      exact (mem_absentRecords.mp hr).2
    · rw [← hmr]
      exact markRemoved_removed_ne ht r
  have hPAnodup : (keysOf (P ++ A)).Nodup := by
    rw [keysOf_append]
    refine List.nodup_append.mpr ⟨?_, ?_, ?_⟩
    · rw [hkP]
      exact hS
    · rw [hAdef, keys_marked]
      exact keys_absent_nodup hE
    · intro p hp hpa
      rw [hkP] at hp
      have h1 : snapHasPath fileData p = true := by
        rcases List.mem_map.mp hp with ⟨e, he, hkey⟩
        exact hkey ▸ snapHasPath_of_mem he
      have h2 : snapHasPath fileData p = false :=
        mem_keys_marked_absent (hAdef ▸ hpa)
      rw [h1] at h2
      exact absurd h2 (by simp)
  have hT1perm : T1.Perm (P ++ A) := by
    rw [hT1]
    exact sortByPath_perm _
  have hT1nodup : (keysOf T1).Nodup := keys_nodup_of_perm hT1perm.symm hPAnodup
  have hT1pos : 0 < P.length + A.length := by
    cases hfd : fileData with
    | nil =>
      have habs : absentRecords fileData existingRecords = existingRecords := by
        rw [hfd]
        exact List.filter_eq_self.mpr (fun a ha => rfl)
      have hAl : A.length = existingRecords.length := by
        rw [hAdef, habs, List.length_map]
      rw [hAl]
      cases existingRecords with
      | nil => exact absurd rfl hne
      | cons a l => simp
    | cons e fd2 =>
      have hPl : P.length = fileData.length := by
        rw [hPdef, List.length_map]
      rw [hPl, hfd]
      simp
  have hlenT1 : T1.length = P.length + A.length := by
    rw [hT1]
    simp only [sortByPath]
    rw [List.length_insertionSort, List.length_append]
  have hT1ne : T1.isEmpty = false := by
    cases hT : T1 with
    | nil =>
      rw [hT] at hlenT1
      simp only [List.length_nil] at hlenT1
      omega
    | cons a l => rfl
  have hcond2 : ¬ ((false || T1.isEmpty) = true) := by simp [hT1ne]
  have hfindT1 : ∀ e ∈ fileData,
      findRecord T1 e.fullpath = some (updateEntry existingRecords today today e) := by
    intro e he
    have hmem : updateEntry existingRecords today today e ∈ T1 := by
      rw [hT1, mem_sortByPath]
      exact List.mem_append_left _ (hPdef ▸ List.mem_map_of_mem _ he)
    have hfr := findRecord_eq_some_of_mem hT1nodup hmem
    rwa [updateEntry_fullpath] at hfr
  have hP2 : fileData.map (updateEntry T1 today today) = P := by
    rw [hPdef]
    refine List.map_congr_left ?_
    intro e he
    rw [updateEntry_of_found (hfindT1 e he) today today]
    exact update_cs_self _ _ _
      (updateEntry_creation existingRecords today today e)
      (updateEntry_size existingRecords today today e)
  have hnew2 : (fileData.filter (fun e => (findRecord T1 e.fullpath).isNone)).length = 0 := by
    rw [List.length_eq_zero, List.filter_eq_nil_iff]
    intro e he
    rw [hfindT1 e he]
    simp
  have habs2 : (absentRecords fileData T1).Perm A := by
    have hpermf : (absentRecords fileData T1).Perm
        ((P ++ A).filter (fun r => !snapHasPath fileData r.fullpath)) := by
      unfold absentRecords
      exact List.Perm.filter _ hT1perm
    have hPfil : P.filter (fun r => !snapHasPath fileData r.fullpath) = [] := by
      rw [List.filter_eq_nil_iff]
      intro a ha
      rw [hPdef] at ha
      rcases List.mem_map.mp ha with ⟨e, he, hkey⟩
      have hsp : snapHasPath fileData a.fullpath = true := by
        rw [← hkey, updateEntry_fullpath]
        exact snapHasPath_of_mem he
      simp [hsp]
    have hAfil : A.filter (fun r => !snapHasPath fileData r.fullpath) = A := by
      rw [List.filter_eq_self]
      intro a ha
      simp [(hAmem a ha).1]
    rw [List.filter_append, hPfil, hAfil, List.nil_append] at hpermf
    exact hpermf
  have hmark2 : (absentRecords fileData T1).map (markRemoved today) =
      absentRecords fileData T1 := by
    have hid : ∀ a ∈ absentRecords fileData T1, markRemoved today a = a := by
      intro a ha
      have haA : a ∈ A := habs2.mem_iff.mp ha
      unfold markRemoved
      rw [if_neg (hAmem a haA).2]
    rw [List.map_congr_left hid]
    exact List.map_id _
  have hrem2 : ((absentRecords fileData T1).filter (fun r => r.removed = "")).length = 0 := by
    rw [List.length_eq_zero, List.filter_eq_nil_iff]
    intro a ha
    have haA : a ∈ A := habs2.mem_iff.mp ha
    simp [(hAmem a haA).2]
  have hout2 : (sync_files fileData T1 false today).1 = T1 := by
    rw [sync_files_def]
    dsimp only
    rw [if_neg hcond2, if_neg hcond2]
    rw [hP2, hmark2]
    have hsort : sortByPath (P ++ absentRecords fileData T1) = sortByPath (P ++ A) :=
      sortByPath_eq_of_perm (List.Perm.append (List.Perm.refl P) habs2)
        (keys_nodup_of_perm (List.Perm.append (List.Perm.refl P) habs2.symm) hPAnodup)
    rw [hsort, ← hT1]
  have hm1 : (sync_files fileData T1 false today).2.1 = 0 := by
    rw [sync_files_def]
    dsimp only
    exact hnew2
  have hm2 : (sync_files fileData T1 false today).2.2 = 0 := by
    rw [sync_files_def]
    dsimp only
    rw [if_neg hcond2]
    exact hrem2
  have hfinal : sync_files fileData T1 false today =
      ((sync_files fileData T1 false today).1,
       (sync_files fileData T1 false today).2.1,
       (sync_files fileData T1 false today).2.2) := rfl
  rw [hfinal, hout2, hm1, hm2]

/-- C2 witness: one present path and one absent path, reconciled twice
with the same snapshot and date. -/
theorem sync_files_idempotent_witness :
    (([(⟨"x", "c2", "s2"⟩ : SnapEntry)].map SnapEntry.fullpath).Nodup ∧
      (keysOf [(⟨"c", "s", "x", "2024-01-01", "", ""⟩ : FileRecord),
        ⟨"c", "s", "y", "2024-01-01", "", ""⟩]).Nodup ∧
      ([(⟨"c", "s", "x", "2024-01-01", "", ""⟩ : FileRecord),
        ⟨"c", "s", "y", "2024-01-01", "", ""⟩] : List FileRecord) ≠ [] ∧
      ("2024-01-02" : String) ≠ "") ∧
    sync_files [⟨"x", "c2", "s2"⟩]
        (sync_files [⟨"x", "c2", "s2"⟩]
          [⟨"c", "s", "x", "2024-01-01", "", ""⟩, ⟨"c", "s", "y", "2024-01-01", "", ""⟩]
          false "2024-01-02").1 false "2024-01-02" =
      ((sync_files [⟨"x", "c2", "s2"⟩]
          [⟨"c", "s", "x", "2024-01-01", "", ""⟩, ⟨"c", "s", "y", "2024-01-01", "", ""⟩]
          false "2024-01-02").1, 0, 0) :=
  ⟨⟨by decide, by decide, by decide, by decide⟩,
    sync_files_idempotent [⟨"x", "c2", "s2"⟩]
      [⟨"c", "s", "x", "2024-01-01", "", ""⟩, ⟨"c", "s", "y", "2024-01-01", "", ""⟩]
      "2024-01-02" (by decide) (by decide) (by decide) (by decide)⟩

/-- C7 counterexample, refuting the claim on two concrete filenames it
covers.  `AB1` begins with an alphanumeric-and-hyphen run (`AB`) followed
by a separator that is a digit (`1`), yet the classifier's first pattern
attempt does not match, because the compiled pattern additionally requires
whitespace (`\s+`) between the run and the marker; with a space inserted
it does match and captures `AB`.  `123 Build5` begins with an
alphanumeric-and-hyphen run (`123`) followed by whitespace and the marker
`Build`, yet the first attempt still does not match, because the compiled
pattern's leading character class is `[A-Za-z]`: the captured run must
begin with a letter. -/
theorem first_attempt_needs_whitespace_counterexample :
    (("AB1" : String).data = ['A', 'B', '1'] ∧
      ('A' : Char).isAlpha = true ∧ isAlnumDash 'B' = true ∧
      ('1' : Char).isDigit = true ∧
      regexAttempt1 "AB1" = none ∧
      regexAttempt1 "AB 1" = some "AB") ∧
    (("123 Build5" : String).data =
        ['1', '2', '3', ' ', 'B', 'u', 'i', 'l', 'd', '5'] ∧
      (∀ x ∈ ['1', '2', '3'], isAlnumDash x = true) ∧
      isPySpace ' ' = true ∧
      markerMatch ['B', 'u', 'i', 'l', 'd', '5'] = true ∧
      regexAttempt1 "123 Build5" = none) := by
  exact ⟨⟨by decide, by decide, by decide, by decide, by decide, by decide⟩,
    ⟨by decide, by decide, by decide, by decide, by decide⟩⟩

/-- C7 (amended): for every filename that begins with a LETTER followed
by an alphanumeric-and-hyphen run (together, the capture of
`[A-Za-z][A-Za-z0-9\-]*?`), then ONE OR MORE WHITESPACE CHARACTERS, and
then a digit or one of the literal markers `en_`, a version marker
(`v` plus a digit), `Build`, `Rel`, or `dist` (matched
case-insensitively), the classifier's first pattern attempt matches and
returns that letter-initial run as the captured product, from which the
classifier then strips trailing hyphens. -/
theorem first_attempt_matches (c : Char) (run sp rest : List Char)
    (hc : c.isAlpha = true)
    (hrun : ∀ x ∈ run, isAlnumDash x = true)
    (hspne : sp ≠ []) (hsp : ∀ x ∈ sp, isPySpace x = true)
    (hm : markerMatch rest = true) :
    regexAttempt1 (String.mk (c :: (run ++ sp ++ rest))) = some (String.mk (c :: run)) ∧
    (regexAttempt1 (String.mk (c :: (run ++ sp ++ rest)))).map rstripDash =
      some (rstripDash (String.mk (c :: run))) := by
  have h1 : regexAttempt1 (String.mk (c :: (run ++ sp ++ rest))) =
      some (String.mk (c :: run)) := by
    show (if c.isAlpha then
        (lazyCapture restMatches1 [c] (run ++ sp ++ rest)).map String.mk
      else none) = some (String.mk (c :: run))
    rw [if_pos (by simp [hc]), List.append_assoc,
      lazyCapture1_run sp rest hspne hsp hm run [c] hrun]
    rfl
  exact ⟨h1, by rw [h1]; rfl⟩

/-- C7 witness: filename `AB- v1x`, run `AB-` followed by a space and the
version marker `v1`: the first attempt captures `AB-`, stripped to `AB`. -/
theorem first_attempt_matches_witness :
    (('A' : Char).isAlpha = true ∧
      (∀ x ∈ ['B', '-'], isAlnumDash x = true) ∧
      ([' '] : List Char) ≠ [] ∧ (∀ x ∈ [' '], isPySpace x = true) ∧
      markerMatch ['v', '1', 'x'] = true) ∧
    (regexAttempt1 (String.mk ('A' :: (['B', '-'] ++ [' '] ++ ['v', '1', 'x']))) =
        some (String.mk ('A' :: ['B', '-'])) ∧
      (regexAttempt1 (String.mk ('A' :: (['B', '-'] ++ [' '] ++ ['v', '1', 'x'])))).map
          rstripDash =
        some (rstripDash (String.mk ('A' :: ['B', '-'])))) :=
  ⟨⟨by decide, by decide, by decide, by decide, by decide⟩,
    first_attempt_matches 'A' ['B', '-'] [' '] ['v', '1', 'x']
      (by decide) (by decide) (by decide) (by decide) (by decide)⟩

/-- C9: the listing parser, characterized: it accepts a line exactly when
the whitespace split capped at four tokens (the remainder, embedded
whitespace included, kept as the final token) yields exactly four tokens
whose path does not end in `/`, and then returns the date and time joined
by one space as `creation`, with the size and path; the split never
produces more than four tokens, a fifth-whitespace-field line keeps its
tail inside the path, and the spec's scenario line parses as stated. -/
theorem parse_s3_line_spec (line c sz p : String) :
    (parse_s3_line line = some (c, sz, p) ↔
      ∃ d t, pySplitWs line 3 = [d, t, sz, p] ∧ endsWithSlash p = false ∧
        c = d ++ " " ++ t) ∧
    (∀ l : String, (pySplitWs l 3).length ≤ 4) ∧
    pySplitWs "a b c d e f" 3 = ["a", "b", "c", "d e f"] ∧
    parse_s3_line
        "2024-01-01 10:00:00      1234 Router_Setup/firmware/TL-WR841N_V14_en_1.2.3.bin" =
      some ("2024-01-01 10:00:00", "1234",
        "Router_Setup/firmware/TL-WR841N_V14_en_1.2.3.bin") := by
  refine ⟨?_, ?_, by decide, by decide⟩
  · constructor
    · intro h
      unfold parse_s3_line at h
      by_cases h4 : (pySplitWs line 3).length ≠ 4
      · rw [if_pos h4] at h
        cases h
      · rw [if_neg h4] at h
        rcases list_length_four (not_not.mp h4) with ⟨d, t, s2, p2, hps⟩
        rw [hps] at h
        simp only [List.getD_cons_zero, List.getD_cons_succ] at h
        cases hsl : endsWithSlash p2 with
        | true =>
          rw [if_pos (by simp [hsl])] at h
          cases h
        | false =>
          rw [if_neg (by simp [hsl])] at h
          have hinj := Option.some.inj h
          obtain ⟨hc, hsz, hp⟩ : d ++ " " ++ t = c ∧ s2 = sz ∧ p2 = p := by
            have h1 := congrArg Prod.fst hinj
            have h2 := congrArg (fun q => q.2.1) hinj
            have h3 := congrArg (fun q => q.2.2) hinj
            exact ⟨h1, h2, h3⟩
          subst hsz
          subst hp
          exact ⟨d, t, hps, hsl, hc.symm⟩
    · rintro ⟨d, t, hps, hsl, hc⟩
      unfold parse_s3_line
      rw [hps]
      rw [if_neg (by simp)]
      simp only [List.getD_cons_zero, List.getD_cons_succ]
      rw [if_neg (by simp [hsl])]
      rw [hc]
  · intro l
    unfold pySplitWs
    rw [List.length_map]
    exact pySplitAux_length 3 l.data

/-- C9 witness: the iff applied at the spec's scenario line. -/
theorem parse_s3_line_spec_witness :
    parse_s3_line
        "2024-01-01 10:00:00      1234 Router_Setup/firmware/TL-WR841N_V14_en_1.2.3.bin" =
      some ("2024-01-01 10:00:00", "1234",
        "Router_Setup/firmware/TL-WR841N_V14_en_1.2.3.bin") :=
  (parse_s3_line_spec
    "2024-01-01 10:00:00      1234 Router_Setup/firmware/TL-WR841N_V14_en_1.2.3.bin"
    "2024-01-01 10:00:00" "1234"
    "Router_Setup/firmware/TL-WR841N_V14_en_1.2.3.bin").1.mpr
    ⟨"2024-01-01", "10:00:00", by decide, by decide, by decide⟩

/-- C1 counterexample: with the initial-crawl flag set over a nonempty
previous table, the record `x` present in the previous table but absent
from the (empty) snapshot does NOT appear in the output table of
`sync_files` — it is deleted, contradicting the claim's "retained
unmodified" and "no record is ever deleted". -/
theorem initial_crawl_drops_absent_record :
    ((⟨"c", "s", "x", "2024-01-01", "", ""⟩ : FileRecord) ∈
        [(⟨"c", "s", "x", "2024-01-01", "", ""⟩ : FileRecord)]) ∧
      (sync_files [] [⟨"c", "s", "x", "2024-01-01", "", ""⟩] true "2024-01-02").1 = [] := by
  exact ⟨by decide, by decide⟩

/-- C1 (amended): in non-initial-crawl mode (flag unset; the previous
table is then automatically nonempty when it holds a record) every record
present in the previous table appears, under its path, in the output table
of reconciliation — records absent from the snapshot are carried into the
new table.  (In initial-crawl mode, records absent from the snapshot are
instead dropped from the output.) -/
theorem non_initial_retains_every_record (fileData : List SnapEntry)
    (existingRecords : List FileRecord) (today : String) (r : FileRecord)
    (hr : r ∈ existingRecords) :
    ∃ r2 ∈ (sync_files fileData existingRecords false today).1,
      r2.fullpath = r.fullpath := by
  have hc : (false || existingRecords.isEmpty) = false := by
    cases existingRecords with
    | nil => cases hr
    | cons a l => rfl
  cases h : snapHasPath fileData r.fullpath with
  | true =>
    rcases snapHasPath_iff.mp h with ⟨e, he, hkey⟩
    refine ⟨updateEntry existingRecords today
      (if false || existingRecords.isEmpty then "initial crawl" else today) e,
      mem_sync_out_left he, ?_⟩
    rw [updateEntry_fullpath, hkey]
  | false =>
    have habs : r ∈ absentRecords fileData existingRecords :=
      mem_absentRecords.mpr ⟨hr, h⟩
    exact ⟨markRemoved today r, mem_sync_out_right hc habs, markRemoved_fullpath today r⟩

/-- C1 witness: a record of a nonempty previous table, with the snapshot
empty and the flag unset, reappears (marked removed) in the output. -/
theorem non_initial_retains_every_record_witness :
    ((⟨"c", "s", "x", "2024-01-01", "", ""⟩ : FileRecord) ∈
        [(⟨"c", "s", "x", "2024-01-01", "", ""⟩ : FileRecord)]) ∧
      ∃ r2 ∈ (sync_files [] [⟨"c", "s", "x", "2024-01-01", "", ""⟩] false "2024-01-02").1,
        r2.fullpath = (⟨"c", "s", "x", "2024-01-01", "", ""⟩ : FileRecord).fullpath :=
  ⟨by decide, non_initial_retains_every_record [] [⟨"c", "s", "x", "2024-01-01", "", ""⟩]
    "2024-01-02" ⟨"c", "s", "x", "2024-01-01", "", ""⟩ (by decide)⟩

/-- C3: for a path present both in the previous table (as record `r`) and
in the current snapshot (as entry `e`), the output table's record under
that path is exactly `r` with only `creation` and `size` replaced by the
snapshot's values — `added`, `removed` and `wayback_url` are unchanged.
Holds in both modes.  The two Nodup hypotheses state that snapshot and
table are dicts (keys unique). -/
theorem present_path_updates_only_creation_size (fileData : List SnapEntry)
    (existingRecords : List FileRecord) (initialCrawl : Bool) (today : String)
    (e : SnapEntry) (r : FileRecord)
    (hS : (fileData.map SnapEntry.fullpath).Nodup)
    (hE : (keysOf existingRecords).Nodup)
    (he : e ∈ fileData)
    (hfind : findRecord existingRecords e.fullpath = some r) :
    findRecord (sync_files fileData existingRecords initialCrawl today).1 e.fullpath =
      some { r with creation := e.creation, size := e.size } := by
  have hupd : updateEntry existingRecords today
      (if initialCrawl || existingRecords.isEmpty then "initial crawl" else today) e =
      { r with creation := e.creation, size := e.size } := by
    unfold updateEntry
    rw [hfind]
  have hmem : ({ r with creation := e.creation, size := e.size } : FileRecord) ∈
      (sync_files fileData existingRecords initialCrawl today).1 :=
    hupd ▸ mem_sync_out_left he
  have hkeyn := sync_out_keys_nodup fileData existingRecords initialCrawl today hS hE
  have hres := findRecord_eq_some_of_mem hkeyn hmem
  have hk : r.fullpath = e.fullpath := findRecord_key hfind
  rw [hk]
  rw [show ({ r with creation := e.creation, size := e.size } : FileRecord).fullpath =
    r.fullpath from rfl, hk] at hres
  exact hres

/-- C3 witness: a concrete present path keeps `added`, `removed`,
`wayback_url` and takes the snapshot's `creation` and `size`. -/
theorem present_path_updates_only_creation_size_witness :
    (([(⟨"x", "c2", "s2"⟩ : SnapEntry)].map SnapEntry.fullpath).Nodup ∧
      (keysOf [(⟨"c1", "s1", "x", "2024-01-01", "2023-02-02", "w"⟩ : FileRecord)]).Nodup ∧
      (⟨"x", "c2", "s2"⟩ : SnapEntry) ∈ [(⟨"x", "c2", "s2"⟩ : SnapEntry)] ∧
      findRecord [(⟨"c1", "s1", "x", "2024-01-01", "2023-02-02", "w"⟩ : FileRecord)] "x" =
        some ⟨"c1", "s1", "x", "2024-01-01", "2023-02-02", "w"⟩) ∧
    findRecord (sync_files [⟨"x", "c2", "s2"⟩]
        [⟨"c1", "s1", "x", "2024-01-01", "2023-02-02", "w"⟩] false "2024-06-01").1 "x" =
      some ⟨"c2", "s2", "x", "2024-01-01", "2023-02-02", "w"⟩ :=
  ⟨⟨by decide, by decide, by decide, by decide⟩,
    present_path_updates_only_creation_size [⟨"x", "c2", "s2"⟩]
      [⟨"c1", "s1", "x", "2024-01-01", "2023-02-02", "w"⟩] false "2024-06-01"
      ⟨"x", "c2", "s2"⟩ ⟨"c1", "s1", "x", "2024-01-01", "2023-02-02", "w"⟩
      (by decide) (by decide) (by decide) (by decide)⟩

/-- C4: for a path present in the previous table (as record `r`) but
absent from the current snapshot, in non-initial-crawl mode the output
record under that path is `r` with `removed` set to the run date if it was
empty, and `r` unchanged (never overwritten) if `removed` was already
non-empty — so a further reconciliation with the same absence leaves a
non-empty `removed` as it is. -/
theorem absent_path_removed_set_once (fileData : List SnapEntry)
    (existingRecords : List FileRecord) (today p : String) (r : FileRecord)
    (hS : (fileData.map SnapEntry.fullpath).Nodup)
    (hE : (keysOf existingRecords).Nodup)
    (hfind : findRecord existingRecords p = some r)
    (habsent : snapHasPath fileData p = false) :
    findRecord (sync_files fileData existingRecords false today).1 p =
      some (if r.removed = "" then { r with removed := today } else r) := by
  have hrmem : r ∈ existingRecords := findRecord_mem hfind
  have hkey : r.fullpath = p := findRecord_key hfind
  have hc : (false || existingRecords.isEmpty) = false := by
    cases existingRecords with
    | nil => cases hrmem
    | cons a l => rfl
  have habs : r ∈ absentRecords fileData existingRecords :=
    mem_absentRecords.mpr ⟨hrmem, hkey ▸ habsent⟩
  have hmem := @mem_sync_out_right fileData existingRecords false today r hc habs
  have hkeyn := sync_out_keys_nodup fileData existingRecords false today hS hE
  have hres := findRecord_eq_some_of_mem hkeyn hmem
  rw [markRemoved_fullpath, hkey] at hres
  rw [hres]
  rfl

/-- C4 witness: an absent path with empty `removed` gets the run date; an
absent path with non-empty `removed` keeps it through a further run. -/
theorem absent_path_removed_set_once_witness :
    ((([] : List SnapEntry).map SnapEntry.fullpath).Nodup ∧
      (keysOf [(⟨"c", "s", "x", "2024-01-01", "", ""⟩ : FileRecord)]).Nodup ∧
      findRecord [(⟨"c", "s", "x", "2024-01-01", "", ""⟩ : FileRecord)] "x" =
        some ⟨"c", "s", "x", "2024-01-01", "", ""⟩ ∧
      snapHasPath [] "x" = false) ∧
    findRecord (sync_files [] [⟨"c", "s", "x", "2024-01-01", "", ""⟩] false "2024-01-02").1 "x" =
      some (if ("" : String) = "" then
        { (⟨"c", "s", "x", "2024-01-01", "", ""⟩ : FileRecord) with removed := "2024-01-02" }
        else ⟨"c", "s", "x", "2024-01-01", "", ""⟩) :=
  ⟨⟨by decide, by decide, by decide, by decide⟩,
    absent_path_removed_set_once [] [⟨"c", "s", "x", "2024-01-01", "", ""⟩]
      "2024-01-02" "x" ⟨"c", "s", "x", "2024-01-01", "", ""⟩
      (by decide) (by decide) (by decide) (by decide)⟩

/-- C5: in initial-crawl mode (the flag set, or the previous table empty),
reconciliation never sets any record's `removed` field: any record of the
output table with a non-empty `removed` inherited it unchanged from the
record with the same path in the previous table. -/
theorem initial_crawl_never_marks_removed (fileData : List SnapEntry)
    (existingRecords : List FileRecord) (initialCrawl : Bool) (today : String)
    (hInit : initialCrawl = true ∨ existingRecords = [])
    (r2 : FileRecord)
    (hr2 : r2 ∈ (sync_files fileData existingRecords initialCrawl today).1)
    (hset : r2.removed ≠ "") :
    ∃ r ∈ existingRecords, r.fullpath = r2.fullpath ∧ r.removed = r2.removed := by
  have hc : (initialCrawl || existingRecords.isEmpty) = true := by
    rcases hInit with h | h
    · simp [h]
    · simp [h]
  rw [sync_files_def] at hr2
  rw [if_pos hc, if_pos hc, List.append_nil, mem_sortByPath] at hr2
  rcases List.mem_map.mp hr2 with ⟨e, he, hupd⟩
  rcases updateEntry_cases existingRecords today "initial crawl" e with
    ⟨r, hfind, hval⟩ | ⟨hfind, hval⟩
  · rw [hval] at hupd
    refine ⟨r, findRecord_mem hfind, ?_, ?_⟩
    · rw [← hupd]
    · rw [← hupd]
  · rw [hval] at hupd
    exfalso
    apply hset
    rw [← hupd]
    rfl

/-- C5 witness: with the flag set over a table whose record `x` already
carries a non-empty `removed`, the output record's `removed` traces back
to that previous record unchanged. -/
theorem initial_crawl_never_marks_removed_witness :
    ((true = true ∨ ([(⟨"c", "s", "x", "2024-01-01", "2023-05-05", ""⟩ : FileRecord)] :
        List FileRecord) = []) ∧
      (⟨"c2", "s2", "x", "2024-01-01", "2023-05-05", ""⟩ : FileRecord) ∈
        (sync_files [⟨"x", "c2", "s2"⟩]
          [⟨"c", "s", "x", "2024-01-01", "2023-05-05", ""⟩] true "2024-06-01").1 ∧
      (⟨"c2", "s2", "x", "2024-01-01", "2023-05-05", ""⟩ : FileRecord).removed ≠ "") ∧
    ∃ r ∈ [(⟨"c", "s", "x", "2024-01-01", "2023-05-05", ""⟩ : FileRecord)],
      r.fullpath = (⟨"c2", "s2", "x", "2024-01-01", "2023-05-05", ""⟩ : FileRecord).fullpath ∧
      r.removed = (⟨"c2", "s2", "x", "2024-01-01", "2023-05-05", ""⟩ : FileRecord).removed :=
  ⟨⟨Or.inl rfl, by decide, by decide⟩,
    initial_crawl_never_marks_removed [⟨"x", "c2", "s2"⟩]
      [⟨"c", "s", "x", "2024-01-01", "2023-05-05", ""⟩] true "2024-06-01"
      (Or.inl rfl) ⟨"c2", "s2", "x", "2024-01-01", "2023-05-05", ""⟩
      (by decide) (by decide)⟩

end Tapo
